import Mathlib

/-!
Verification of the worktree-management core of the `wtm` repository
(`worktree.go`, `config.go`, `mcp.go`) against its natural-language
specification.

The Go code is shallowly embedded: pure string processing becomes Lean
functions on `String`/`List Char`; effectful operations (running git,
reading stdin, stat-ing directories, creating directories) become
functions of an explicit world record that carries the result each
external call would produce, and every operation additionally returns
the list of external events (git commands, directory creations, stdin
reads) it issued, in order.

Go `time.Time` values are modelled as `Nat` nanoseconds since the Go
zero time (January 1, year 1, UTC); `0` is the zero `time.Time`.
-/

namespace Wtm

/-! ### String utilities (models of the Go standard library functions used) -/

/-- Model of the whitespace test of Go `strings.TrimSpace` (ASCII part of
`unicode.IsSpace`: space, tab, newline, carriage return, vertical tab, form feed). -/
def isSpaceChar (c : Char) : Bool :=
  c = ' ' || c = '\t' || c = '\n' || c = '\r' || c.val = 11 || c.val = 12

/-- Model of Go `strings.TrimSpace`: drop leading and trailing whitespace. -/
def trimSpace (s : String) : String :=
  ⟨((s.data.dropWhile isSpaceChar).reverse.dropWhile isSpaceChar).reverse⟩

/-- Model of Go `strings.ToLower` on the ASCII range (the only range the
code ever compares against). -/
def toLowerChar (c : Char) : Char :=
  if 'A' ≤ c ∧ c ≤ 'Z' then Char.ofNat (c.toNat + 32) else c

/-- Model of Go `strings.ToLower`. -/
def toLowerStr (s : String) : String :=
  ⟨s.data.map toLowerChar⟩

/-- Split a character list at every occurrence of `sep`
(Go `strings.Split` with a one-character separator): always returns at
least one group, and `k` separators produce `k+1` groups. -/
def splitOnChar (sep : Char) : List Char → List (List Char)
  | [] => [[]]
  | c :: cs =>
    match splitOnChar sep cs with
    | [] => [[]]
    | g :: gs => if c = sep then [] :: g :: gs else (c :: g) :: gs

/-- Model of Go `strings.Split(s, "\n")`. -/
def splitLines (s : String) : List String :=
  (splitOnChar '\n' s.data).map (fun l => ⟨l⟩)

/-- Model of Go `strings.HasPrefix` on character lists. -/
def listIsPrefixOf : List Char → List Char → Bool
  | [], _ => true
  | _ :: _, [] => false
  | a :: as, b :: bs => a = b && listIsPrefixOf as bs

/-- Drop the first `n` characters (Go `strings.TrimPrefix` drops the
matched prefix's bytes; the prefixes used here are ASCII, so characters
and bytes coincide). -/
def dropChars (n : Nat) (s : String) : String :=
  ⟨s.data.drop n⟩

/-- Split a character list into the part before the first space and the
part after it (Go `strings.SplitN(line, " ", 2)`); `none` when the list
contains no space, in which case Go returns a one-element slice. -/
def breakAtSpace : List Char → Option (List Char × List Char)
  | [] => Option.none
  | c :: cs =>
    if c = ' ' then Option.some ([], cs)
    else
      match breakAtSpace cs with
      | Option.none => Option.none
      | Option.some (a, b) => Option.some (c :: a, b)

/-! ### Path utilities (models of Go `path/filepath` on Unix) -/

/-- Model of Go `filepath.IsAbs` on Unix: the path starts with a slash. -/
def filepathIsAbs (s : String) : Bool :=
  s.data.head? = Option.some '/'

/-- Model of Go `filepath.Base` on Unix: last element of the path after
removing trailing slashes; `"."` for the empty path, `"/"` for a path of
only slashes. -/
def filepathBase (s : String) : String :=
  if s.data = [] then "." else
  let p := (s.data.reverse.dropWhile (fun c => c = '/')).reverse
  let seg := (p.reverse.takeWhile (fun c => c ≠ '/')).reverse
  if seg = [] then "/" else ⟨seg⟩

/-- One step of the lexical path-cleaning stack machine of Go
`filepath.Clean`: `acc` is the stack of already-emitted path elements,
most recent first.  Empty and `.` elements vanish; `..` pops a plain
element, accumulates at the start of a relative path, and vanishes at
the root of a rooted path; every other element is pushed. -/
def cleanPush (rooted : Bool) (acc : List (List Char)) (seg : List Char) : List (List Char) :=
  if seg = [] ∨ seg = ['.'] then acc
  else if seg = ['.', '.'] then
    match acc with
    | [] => if rooted then [] else [['.', '.']]
    | top :: rest => if top = ['.', '.'] then ['.', '.'] :: top :: rest else rest
  else seg :: acc

/-- Join path elements with slashes (no cleaning). -/
def joinSlash : List (List Char) → List Char
  | [] => []
  | g :: gs =>
    match gs with
    | [] => g
    | _ :: _ => g ++ '/' :: joinSlash gs

/-- The cleaned path elements of a path (left to right): split on
slashes and run the element stack machine. -/
def cleanCore (rooted : Bool) (l : List Char) : List (List Char) :=
  ((splitOnChar '/' l).foldl (cleanPush rooted) []).reverse

/-- Rebuild a cleaned path from its elements, yielding `"."` for an
empty relative result and `"/"` for an empty rooted one. -/
def renderClean (rooted : Bool) (segs : List (List Char)) : List Char :=
  if rooted then '/' :: joinSlash segs
  else if segs = [] then ['.'] else joinSlash segs

/-- Model of Go `filepath.Clean` on Unix, as a character-list function:
the path is rooted when it starts with a slash. -/
def cleanList (l : List Char) : List Char :=
  match l with
  | [] => ['.']
  | c :: _ => renderClean (decide (c = '/')) (cleanCore (decide (c = '/')) l)

/-- Model of Go `filepath.Clean` on Unix. -/
def filepathClean (s : String) : String :=
  ⟨cleanList s.data⟩

/-- Model of Go `filepath.Join` with two arguments on Unix: join the
non-empty arguments with a slash and clean the result; all-empty input
yields the empty string. -/
def filepathJoin (a b : String) : String :=
  if a = "" ∧ b = "" then ""
  else if a = "" then filepathClean b
  else if b = "" then filepathClean a
  else filepathClean ⟨a.data ++ '/' :: b.data⟩

/-! ### The worktree record and the porcelain parser (`getWorktrees`) -/

/-- `Worktree` of `worktree.go`: one enumerated worktree record.
`created` models the Go `time.Time` field as nanoseconds since the zero
time; the Go zero value of the struct has `created = 0`. -/
structure Worktree where
  name : String
  branch : String
  path : String
  head : String
  created : Nat
deriving DecidableEq, Repr

/-- The Go zero value `Worktree{}`. -/
def Worktree.empty : Worktree :=
  ⟨"", "", "", "", 0⟩

/-- The reference-namespace marker stripped from `branch` porcelain values. -/
def refsHeads : String := "refs/heads/"

/-- One non-blank (already trimmed) porcelain line applied to the
accumulator: the `switch key` of `getWorktrees` in `worktree.go`.  A
line with no space is Go's `len(parts) < 2` case and is skipped. -/
def parseLine (current : Worktree) (line : String) : Worktree :=
  match breakAtSpace line.data with
  | Option.none => current
  | Option.some (k, v) =>
    let key : String := ⟨k⟩
    let value : String := ⟨v⟩
    if key = "worktree" then
      { current with path := value, name := filepathBase value }
    else if key = "HEAD" then
      { current with head := value }
    else if key = "branch" then
      { current with branch :=
          if listIsPrefixOf refsHeads.data value.data then dropChars refsHeads.length value else value }
    else current

/-- The line loop of `getWorktrees` in `worktree.go`, including the
final flush of a pending accumulator with non-empty path after the last
line. -/
def parseLoop : Worktree → List String → List Worktree
  | current, [] => if current.path = "" then [] else [current]
  | current, line :: rest =>
    let l := trimSpace line
    if l = "" then
      if current.path = "" then parseLoop current rest
      else current :: parseLoop Worktree.empty rest
    else parseLoop (parseLine current l) rest

/-- The pure parsing part of `getWorktrees`: porcelain output text to
record sequence. -/
def getWorktreesParse (output : String) : List Worktree :=
  parseLoop Worktree.empty (splitLines output)

/-- The `created` pass of `getWorktrees`: `os.Stat` each record's path
and set `created` to the modification time when the stat succeeds,
leaving the zero value when it fails.  `stat` models `os.Stat`:
`some t` is a successful stat with modification time `t`. -/
def populateCreated (stat : String → Option Nat) (ws : List Worktree) : List Worktree :=
  ws.map (fun wt =>
    match stat wt.path with
    | Option.some t => { wt with created := t }
    | Option.none => wt)

/-- `getWorktrees` of `worktree.go`: run `git worktree list --porcelain`
(its outcome is `listOutput`), parse, then populate `created`. -/
def getWorktrees (listOutput : Except String String) (stat : String → Option Nat) :
    Except String (List Worktree) :=
  match listOutput with
  | Except.error e => Except.error e
  | Except.ok output => Except.ok (populateCreated stat (getWorktreesParse output))

/-! ### Reference parsing algorithm of spec §4.2 (claim C1)

Modelled from the spec: the spec's reference algorithm is stated as a
single left-to-right pass with one accumulator and an explicit result
sequence, so it is embedded as a fold over the lines with
state (result so far, accumulator), followed by the final flush.

The claim and spec §4.2 state no per-line trimming step, so the literal
model below classifies each raw line as it stands (a blank line is the
empty line).  The code, by contrast, trims every line first; the
amended model adds exactly that trimming step. -/

/-- Modelled from the spec (claim C1), literally: the effect of one raw
line on a (result, accumulator) state.  A blank line appends the
accumulator to the result exactly when its path is non-empty and then
resets it; a non-blank line is split into key and value on the first
space, `worktree` sets path and sets name to the final path segment,
`HEAD` sets head, `branch` sets branch with a leading `refs/heads/`
stripped (the value unchanged otherwise), and any other key (or a line
with no space to split on) leaves the accumulator unchanged.  No
trimming appears in the claim's algorithm. -/
def specLineStepLiteral (st : List Worktree × Worktree) (line : String) :
    List Worktree × Worktree :=
  if line = "" then
    if st.2.path = "" then st else (st.1 ++ [st.2], Worktree.empty)
  else
    match breakAtSpace line.data with
    | Option.none => st
    | Option.some (k, v) =>
      let key : String := ⟨k⟩
      let value : String := ⟨v⟩
      if key = "worktree" then
        (st.1, { st.2 with path := value, name := filepathBase value })
      else if key = "HEAD" then
        (st.1, { st.2 with head := value })
      else if key = "branch" then
        (st.1, { st.2 with branch :=
          if listIsPrefixOf refsHeads.data value.data then dropChars refsHeads.length value else value })
      else st

/-- Modelled from the spec (claim C1), literally: process the raw lines
in order with a single accumulator, then append a pending accumulator
with non-empty path after the last line. -/
def specReferenceParseLiteral (output : String) : List Worktree :=
  let st := (splitLines output).foldl specLineStepLiteral ([], Worktree.empty)
  if st.2.path = "" then st.1 else st.1 ++ [st.2]

/-- Modelled from the amended claim C1: as the literal algorithm, but
each raw line is first trimmed of surrounding whitespace (the code's
`strings.TrimSpace`), and a line is blank when it trims to empty. -/
def specLineStep (st : List Worktree × Worktree) (rawLine : String) : List Worktree × Worktree :=
  let line := trimSpace rawLine
  if line = "" then
    if st.2.path = "" then st else (st.1 ++ [st.2], Worktree.empty)
  else
    match breakAtSpace line.data with
    | Option.none => st
    | Option.some (k, v) =>
      let key : String := ⟨k⟩
      let value : String := ⟨v⟩
      if key = "worktree" then
        (st.1, { st.2 with path := value, name := filepathBase value })
      else if key = "HEAD" then
        (st.1, { st.2 with head := value })
      else if key = "branch" then
        (st.1, { st.2 with branch :=
          if listIsPrefixOf refsHeads.data value.data then dropChars refsHeads.length value else value })
      else st

/-- Modelled from the amended claim C1: process the lines in order with
a single accumulator (each line trimmed first), then append a pending
accumulator with non-empty path after the last line. -/
def specReferenceParse (output : String) : List Worktree :=
  let st := (splitLines output).foldl specLineStep ([], Worktree.empty)
  if st.2.path = "" then st.1 else st.1 ++ [st.2]

/-! ### External events and worlds

Each operation records the external side effects it issues, in order:
git invocations, directory creations (`os.MkdirAll`), and reads of the
confirmation line from standard input. -/

/-- An external side effect issued by an operation. -/
inductive Event where
  | gitCmd : List String → Event
  | mkdirAll : String → Event
  | readStdin : Event
deriving DecidableEq, Repr

/-- The enumeration command issued by `getWorktrees`. -/
def listCmd : Event := Event.gitCmd ["worktree", "list", "--porcelain"]

/-- True exactly on a `git worktree add ...` invocation. -/
def isWorktreeAddCmd : Event → Bool
  | Event.gitCmd ("worktree" :: "add" :: _) => true
  | _ => false

/-- The first record whose `name` equals `name` (the linear search with
`break` used by `AddWorktree`, `ShowWorktree` and `RemoveWorktree`). -/
def findWorktree (name : String) : List Worktree → Option Worktree
  | [] => Option.none
  | wt :: rest => if wt.name = name then Option.some wt else findWorktree name rest

/-! ### Configuration and the path resolver -/

/-- `Config` of `config.go`: the single setting `worktreeRoot`. -/
structure Config where
  worktreeRoot : String
deriving DecidableEq, Repr

/-- `defaultWorktreeRoot` of `config.go`. -/
def defaultWorktreeRoot : String := ".git/wtm/worktrees"

/-- The environment `resolveWorktreeBase` reads: the outcome of
`loadConfig`, of `git rev-parse --git-common-dir`, and of `os.Getwd`. -/
structure ResolveEnv where
  config : Except String Config
  commonDirOutput : Except String String
  getwd : Except String String

/-- `resolveWorktreeBase` of `worktree.go`: the issued events paired with
the resulting base directory (or error).  Trim the configured root and
fall back to the default when it is empty; take the trimmed output of
`git rev-parse --git-common-dir`, joining it onto the working directory
when it is relative; the repository root is the cleaned join of the
common directory and `..`; an absolute root stands alone, a relative one
is joined onto the repository root; the result is cleaned. -/
def resolveWorktreeBase (env : ResolveEnv) : List Event × Except String String :=
  match env.config with
  | Except.error e => ([], Except.error e)
  | Except.ok cfg =>
    let root0 := trimSpace cfg.worktreeRoot
    let root := if root0 = "" then defaultWorktreeRoot else root0
    let evs := [Event.gitCmd ["rev-parse", "--git-common-dir"]]
    match env.commonDirOutput with
    | Except.error e => (evs, Except.error e)
    | Except.ok out =>
      let commonDir := trimSpace out
      let commonDirAbs : Except String String :=
        if filepathIsAbs commonDir then Except.ok commonDir
        else
          match env.getwd with
          | Except.error e => Except.error e
          | Except.ok cwd => Except.ok (filepathJoin cwd commonDir)
      match commonDirAbs with
      | Except.error e => (evs, Except.error e)
      | Except.ok commonDir =>
        let repoRoot := filepathClean (filepathJoin commonDir "..")
        let base := if filepathIsAbs root then root else filepathJoin repoRoot root
        (evs, Except.ok (filepathClean base))

/-- Modelled from the spec wording of claim C6, literally: the
configured override path itself when the override is absolute; the
repository root joined with the override when the override is relative;
the repository root joined with the default segment when no override is
configured (override empty or whitespace); the repository root is the
parent directory of the git common directory, made absolute against the
current working directory only when git reports a relative common dir;
failures surface as errors. -/
def specResolveLiteral (env : ResolveEnv) : Except String String :=
  match env.config with
  | Except.error e => Except.error e
  | Except.ok cfg =>
    let root := trimSpace cfg.worktreeRoot
    match env.commonDirOutput with
    | Except.error e => Except.error e
    | Except.ok out =>
      let commonDir := trimSpace out
      let commonDirAbs : Except String String :=
        if filepathIsAbs commonDir then Except.ok commonDir
        else
          match env.getwd with
          | Except.error e => Except.error e
          | Except.ok cwd => Except.ok (filepathJoin cwd commonDir)
      match commonDirAbs with
      | Except.error e => Except.error e
      | Except.ok commonDir =>
        let repoRoot := filepathJoin commonDir ".."
        if root = "" then Except.ok (filepathJoin repoRoot defaultWorktreeRoot)
        else if filepathIsAbs root then Except.ok root
        else Except.ok (filepathJoin repoRoot root)

/-- Modelled from the amended wording of claim C6: as the literal
claim, except that an absolute override is returned lexically cleaned
(`filepath.Clean`), so that an already-clean absolute override is
returned unchanged. -/
def specResolveAmended (env : ResolveEnv) : Except String String :=
  match env.config with
  | Except.error e => Except.error e
  | Except.ok cfg =>
    let root := trimSpace cfg.worktreeRoot
    match env.commonDirOutput with
    | Except.error e => Except.error e
    | Except.ok out =>
      let commonDir := trimSpace out
      let commonDirAbs : Except String String :=
        if filepathIsAbs commonDir then Except.ok commonDir
        else
          match env.getwd with
          | Except.error e => Except.error e
          | Except.ok cwd => Except.ok (filepathJoin cwd commonDir)
      match commonDirAbs with
      | Except.error e => Except.error e
      | Except.ok commonDir =>
        let repoRoot := filepathJoin commonDir ".."
        if root = "" then Except.ok (filepathJoin repoRoot defaultWorktreeRoot)
        else if filepathIsAbs root then Except.ok (filepathClean root)
        else Except.ok (filepathJoin repoRoot root)

/-! ### AddWorktree -/

/-- The world `AddWorktree` acts in: the outcome each external call
would produce, in program order. -/
structure AddWorld where
  revParseGitDir : Except String String
  listOutput : Except String String
  stat : String → Option Nat
  config : Except String Config
  revParseCommonDir : Except String String
  getwd : Except String String
  mkdirResult : Except String Unit
  addResult : Except String String
  listOutput2 : Except String String
  stat2 : String → Option Nat

/-- The outcome of `AddWorktree`: the events issued, the returned error
(or success), and the record found by the post-creation re-enumeration
and printed in the success message (`none` when nothing was printed). -/
structure AddOutcome where
  events : List Event
  result : Except String Unit
  printed : Option Worktree
deriving Repr

/-- `AddWorktree` of `worktree.go`: validate the repository, enumerate
and reject a duplicate name, resolve the base directory, create it,
reject combined `-b`/`-B`, build and run the `git worktree add`
invocation, then re-enumerate and print the matching record (returning
success even when no record matches). -/
def addWorktree (name branch checkout base : String) (w : AddWorld) : AddOutcome :=
  let ev0 := [Event.gitCmd ["rev-parse", "--git-dir"]]
  match w.revParseGitDir with
  | Except.error _ => ⟨ev0, Except.error "not in a git repository", Option.none⟩
  | Except.ok _ =>
    let ev1 := ev0 ++ [listCmd]
    match getWorktrees w.listOutput w.stat with
    | Except.error e => ⟨ev1, Except.error e, Option.none⟩
    | Except.ok worktrees =>
      if worktrees.any (fun wt => wt.name == name) then
        ⟨ev1, Except.error ("worktree '" ++ name ++ "' already exists"), Option.none⟩
      else
        let r := resolveWorktreeBase ⟨w.config, w.revParseCommonDir, w.getwd⟩
        let ev2 := ev1 ++ r.1
        match r.2 with
        | Except.error e => ⟨ev2, Except.error e, Option.none⟩
        | Except.ok worktreeBase =>
          let ev3 := ev2 ++ [Event.mkdirAll worktreeBase]
          match w.mkdirResult with
          | Except.error e => ⟨ev3, Except.error e, Option.none⟩
          | Except.ok _ =>
            let worktreePath := filepathJoin worktreeBase name
            if checkout ≠ "" ∧ branch ≠ "" then
              ⟨ev3, Except.error "cannot use both -b and -B options", Option.none⟩
            else
              let args : List String :=
                if branch ≠ "" then
                  ["worktree", "add", worktreePath, "-b", branch] ++ (if base ≠ "" then [base] else [])
                else if checkout ≠ "" then
                  ["worktree", "add", worktreePath, checkout]
                else
                  ["worktree", "add", worktreePath, "-b", name] ++ (if base ≠ "" then [base] else [])
              let ev4 := ev3 ++ [Event.gitCmd args]
              match w.addResult with
              | Except.error e => ⟨ev4, Except.error e, Option.none⟩
              | Except.ok _ =>
                let ev5 := ev4 ++ [listCmd]
                match getWorktrees w.listOutput2 w.stat2 with
                | Except.error e => ⟨ev5, Except.error e, Option.none⟩
                | Except.ok worktrees2 =>
                  match findWorktree name worktrees2 with
                  | Option.some wt => ⟨ev5, Except.ok (), Option.some wt⟩
                  | Option.none => ⟨ev5, Except.ok (), Option.none⟩

/-- Modelled from the claim wording of C4: the exact `git worktree add`
argument list the claim states for a call that reaches command
construction, `path` being the resolved worktree base joined with the
name. -/
def claimedAddArgs (name branch checkout base path : String) : List String :=
  if branch ≠ "" then
    ["worktree", "add", path, "-b", branch] ++ (if base ≠ "" then [base] else [])
  else if checkout ≠ "" then
    ["worktree", "add", path, checkout]
  else
    ["worktree", "add", path, "-b", name] ++ (if base ≠ "" then [base] else [])

/-- A concrete fully-successful world for `addWorktree`, used as the
explicit input of witnesses and counterexamples. -/
def addWorldA : AddWorld :=
  { revParseGitDir := Except.ok ".git"
    listOutput := Except.ok "worktree /repo\nHEAD abc\nbranch refs/heads/main\n"
    stat := fun _ => Option.none
    config := Except.ok ⟨""⟩
    revParseCommonDir := Except.ok "/repo/.git\n"
    getwd := Except.ok "/repo"
    mkdirResult := Except.ok ()
    addResult := Except.ok ""
    listOutput2 := Except.ok "worktree /repo\n\nworktree /repo/.git/wtm/worktrees/n\nbranch refs/heads/b\n"
    stat2 := fun _ => Option.none }

/-- As `addWorldA`, except that the post-creation re-enumeration does
not contain the requested name. -/
def addWorldB : AddWorld :=
  { addWorldA with listOutput2 := Except.ok "worktree /repo\n" }

/-- `AddWorktreeOutput` of `mcp.go`. -/
structure AddWorktreeOutput where
  name : String
  branch : String
  path : String
deriving DecidableEq, Repr

/-- `handleAddWorktree` of `mcp.go`: run `AddWorktree`, wrap its error;
on success re-enumerate (outcome `listOutput3`/`stat3`) and return the
matching record, or the error `worktree created but not found` when no
record matches. -/
def handleAddWorktree (name branch checkout base : String) (w : AddWorld)
    (listOutput3 : Except String String) (stat3 : String → Option Nat) :
    Except String AddWorktreeOutput :=
  match (addWorktree name branch checkout base w).result with
  | Except.error e => Except.error ("failed to add worktree: " ++ e)
  | Except.ok _ =>
    match getWorktrees listOutput3 stat3 with
    | Except.error e => Except.error ("failed to get worktree info: " ++ e)
    | Except.ok worktrees =>
      match findWorktree name worktrees with
      | Option.some wt => Except.ok ⟨wt.name, wt.branch, wt.path⟩
      | Option.none => Except.error "worktree created but not found"

/-! ### RemoveWorktree -/

/-- `BranchDeleteMode` of `worktree.go`. -/
inductive BranchDeleteMode where
  | none : BranchDeleteMode
  | safe : BranchDeleteMode
  | force : BranchDeleteMode
deriving DecidableEq, Repr

/-- `RemoveOptions` of `worktree.go`. -/
structure RemoveOptions where
  force : Bool
  branchDelete : BranchDeleteMode
deriving DecidableEq, Repr

/-- The world `RemoveWorktree` acts in. -/
structure RemoveWorld where
  listOutput : Except String String
  stat : String → Option Nat
  stdinLine : Except String String
  removeResult : Except String String
  branchDeleteResult : Except String String

/-- The outcome of `RemoveWorktree`: issued events and returned error
(or success). -/
structure RemoveOutcome where
  events : List Event
  result : Except String Unit
deriving Repr

/-- The error message built by `RemoveWorktree` when the worktree was
removed but the subsequent branch deletion failed (the
`fmt.Errorf("deleted worktree '%s' but failed to delete branch '%s': %w", ...)`
of `worktree.go`). -/
def removeFailMsg (name branchName e : String) : String :=
  "deleted worktree '" ++ name ++ "' but failed to delete branch '" ++ branchName ++ "': " ++ e

/-- The tail of `RemoveWorktree` after the confirmation: remove the
worktree with `git worktree remove --force`, then optionally delete the
branch, skipping silently when the record has no branch, and reporting
the worktree-removed-but-branch-retained message when branch deletion fails. -/
def removeCore (evs : List Event) (target : Worktree) (opts : RemoveOptions) (w : RemoveWorld) :
    RemoveOutcome :=
  let removeEv := Event.gitCmd ["worktree", "remove", "--force", target.path]
  match w.removeResult with
  | Except.error e => ⟨evs ++ [removeEv], Except.error e⟩
  | Except.ok _ =>
    if opts.branchDelete = BranchDeleteMode.none then ⟨evs ++ [removeEv], Except.ok ()⟩
    else if target.branch = "" then ⟨evs ++ [removeEv], Except.ok ()⟩
    else
      let flag := if opts.branchDelete = BranchDeleteMode.force then "-D" else "-d"
      let branchEv := Event.gitCmd ["branch", flag, target.branch]
      match w.branchDeleteResult with
      | Except.error e =>
        ⟨evs ++ [removeEv, branchEv], Except.error (removeFailMsg target.name target.branch e)⟩
      | Except.ok _ => ⟨evs ++ [removeEv, branchEv], Except.ok ()⟩

/-- `RemoveWorktree` of `worktree.go`: enumerate, find the record by
name, then unless `force` read one line from standard input and proceed
exactly when it trims and lowercases to `y` or `yes` (any other
response aborts with success), then run the removal tail. -/
def removeWorktree (name : String) (opts : RemoveOptions) (w : RemoveWorld) : RemoveOutcome :=
  match getWorktrees w.listOutput w.stat with
  | Except.error e => ⟨[listCmd], Except.error e⟩
  | Except.ok worktrees =>
    match findWorktree name worktrees with
    | Option.none => ⟨[listCmd], Except.error ("worktree '" ++ name ++ "' not found")⟩
    | Option.some target =>
      if opts.force then removeCore [listCmd] target opts w
      else
        match w.stdinLine with
        | Except.error e => ⟨[listCmd, Event.readStdin], Except.error e⟩
        | Except.ok response =>
          let r := toLowerStr (trimSpace response)
          if r ≠ "y" ∧ r ≠ "yes" then ⟨[listCmd, Event.readStdin], Except.ok ()⟩
          else removeCore [listCmd, Event.readStdin] target opts w

/-! ### Time rendering (model of the Go `time` formatting the code uses) -/

/-- Nanoseconds per second, minute, hour, day (Go `time` constants). -/
def nsSecond : Nat := 1000000000

/-- Nanoseconds per minute. -/
def nsMinute : Nat := 60 * nsSecond

/-- Nanoseconds per hour. -/
def nsHour : Nat := 60 * nsMinute

/-- Nanoseconds per day. -/
def nsDay : Nat := 24 * nsHour

/-- Proleptic-Gregorian civil date from a day count, day 0 being
January 1 of year 1 (the Go zero time), as Go's `time` package
computes it. -/
def civilFromDays (d : Nat) : Nat × Nat × Nat :=
  let g := d + 306
  let era := g / 146097
  let doe := g % 146097
  let yoe := (doe - doe / 1460 + doe / 36524 - doe / 146096) / 365
  let y := yoe + era * 400
  let doy := doe - (365 * yoe + yoe / 4 - yoe / 100)
  let mp := (5 * doy + 2) / 153
  let day := doy - (153 * mp + 2) / 5 + 1
  let m := if mp < 10 then mp + 3 else mp - 9
  if m ≤ 2 then (y + 1, m, day) else (y, m, day)

/-- Left-pad a number with zeros to `width` digits (Go layout padding). -/
def padNum (width n : Nat) : String :=
  let s := toString n
  ⟨List.replicate (width - s.data.length) '0' ++ s.data⟩

/-- The date part `2006-01-02` of a Go time layout, on our nanosecond
model (UTC). -/
def formatDateGo (t : Nat) : String :=
  let days := t / nsSecond / 86400
  let c := civilFromDays days
  padNum 4 c.1 ++ "-" ++ padNum 2 c.2.1 ++ "-" ++ padNum 2 c.2.2

/-- The clock part `15:04:05` of a Go time layout. -/
def formatClockGo (t : Nat) : String :=
  let sod := t / nsSecond % 86400
  padNum 2 (sod / 3600) ++ ":" ++ padNum 2 (sod % 3600 / 60) ++ ":" ++ padNum 2 (sod % 60)

/-- Go `t.Format("2006-01-02 15:04:05")` on our model (UTC). -/
def formatDateTimeGo (t : Nat) : String :=
  formatDateGo t ++ " " ++ formatClockGo t

/-- Go `t.Format(time.RFC3339)` on our model (UTC, so a `Z` suffix; the
zero time is UTC). -/
def formatRFC3339Go (t : Nat) : String :=
  formatDateGo t ++ "T" ++ formatClockGo t ++ "Z"

/-- `formatTimeAgo` of `worktree.go`: `unknown` for the zero time, then
relative buckets on `time.Since(t)` (the current instant `now` is passed
explicitly), falling back to the date for anything a month old. -/
def formatTimeAgo (t : Nat) (now : Nat) : String :=
  if t = 0 then "unknown"
  else if (now : Int) - (t : Int) < (nsMinute : Int) then "just now"
  else
    let d := now - t
    if d < nsHour then
      let minutes := d / nsMinute
      if minutes = 1 then "1 minute ago" else toString minutes ++ " minutes ago"
    else if d < nsDay then
      let hours := d / nsHour
      if hours = 1 then "1 hour ago" else toString hours ++ " hours ago"
    else if d < 30 * nsDay then
      let days := d / nsDay
      if days = 1 then "1 day ago" else toString days ++ " days ago"
    else formatDateGo t

/-! ### Output formatters -/

/-- Right-pad a string with spaces to `width` (Go `%-20s` etc.). -/
def padRight (width : Nat) (s : String) : String :=
  s ++ ⟨List.replicate (width - s.data.length) ' '⟩

/-- `printTableFormat` of `worktree.go`, as the full text it prints. -/
def printTableFormat (ws : List Worktree) (now : Nat) : String :=
  if ws = [] then ""
  else
    padRight 20 "NAME" ++ " " ++ padRight 30 "BRANCH" ++ " " ++ padRight 15 "CREATED" ++ "\n" ++
    String.join (ws.map (fun wt =>
      padRight 20 wt.name ++ " " ++ padRight 30 wt.branch ++ " " ++
        padRight 15 (formatTimeAgo wt.created now) ++ "\n"))

/-- `printPrettyFormat` of `worktree.go`, as the full text it prints. -/
def printPrettyFormat (wt : Worktree) : String :=
  "Name:     " ++ wt.name ++ "\n" ++
  "Branch:   " ++ wt.branch ++ "\n" ++
  "Path:     " ++ wt.path ++ "\n" ++
  "HEAD:     " ++ wt.head ++ "\n" ++
  "Created:  " ++ formatDateTimeGo wt.created ++ "\n"

/-- `printField` of `worktree.go`: the text printed for one field
(`fmt.Println` appends a newline), or the unknown-field error. -/
def printField (wt : Worktree) (field : String) : Except String String :=
  if field = "name" then Except.ok (wt.name ++ "\n")
  else if field = "branch" then Except.ok (wt.branch ++ "\n")
  else if field = "path" then Except.ok (wt.path ++ "\n")
  else if field = "head" then Except.ok (wt.head ++ "\n")
  else if field = "created" then Except.ok (formatRFC3339Go wt.created ++ "\n")
  else Except.error ("unknown field: " ++ field)


/-- Does `needle` occur as a contiguous substring of the character
list?  (Used to state what an output does or does not contain.) -/
def listContainsSub (needle : List Char) : List Char → Bool
  | [] => listIsPrefixOf needle []
  | c :: cs => listIsPrefixOf needle (c :: cs) || listContainsSub needle cs

/-- A path element that survives cleaning: non-empty, not a dot, not a
dot-dot, and free of slashes. -/
def plainSeg (g : List Char) : Prop :=
  g ≠ [] ∧ g ≠ ['.'] ∧ g ≠ ['.', '.'] ∧ '/' ∉ g

/-- Shape of the stack the cleaning machine maintains (most recent
first): plain elements on top of a run of dot-dot elements, the latter
absent for rooted paths. -/
def GoodStack (rooted : Bool) (acc : List (List Char)) : Prop :=
  ∃ p q, acc = p ++ q ∧ (∀ g ∈ p, plainSeg g) ∧ (∀ g ∈ q, g = ['.', '.']) ∧
    (rooted = true → q = [])

theorem specLineStep_blank (res : List Worktree) (current : Worktree) (rawLine : String)
    (h : trimSpace rawLine = "") :
    specLineStep (res, current) rawLine =
      if current.path = "" then (res, current) else (res ++ [current], Worktree.empty) := by
  unfold specLineStep
  simp [h]

theorem specLineStep_nonblank (res : List Worktree) (current : Worktree) (rawLine : String)
    (h : ¬ trimSpace rawLine = "") :
    specLineStep (res, current) rawLine = (res, parseLine current (trimSpace rawLine)) := by
  unfold specLineStep parseLine
  rw [if_neg h]
  cases breakAtSpace (trimSpace rawLine).data with
  | none => rfl
  | some kv =>
    obtain ⟨k, v⟩ := kv
    dsimp only
    split_ifs <;> rfl

theorem parseLoop_eq_spec (lines : List String) : ∀ (res : List Worktree) (current : Worktree),
    res ++ parseLoop current lines =
      (fun st : List Worktree × Worktree => if st.2.path = "" then st.1 else st.1 ++ [st.2])
        (lines.foldl specLineStep (res, current)) := by
  induction lines with
  | nil =>
    intro res current
    simp only [parseLoop, List.foldl_nil]
    by_cases h : current.path = "" <;> simp [h]
  | cons line rest ih =>
    intro res current
    simp only [List.foldl_cons]
    by_cases h : trimSpace line = ""
    · rw [specLineStep_blank res current line h]
      by_cases hp : current.path = ""
      · rw [if_pos hp]
        have : parseLoop current (line :: rest) = parseLoop current rest := by
          simp [parseLoop, h, hp]
        rw [this]
        exact ih res current
      · rw [if_neg hp]
        have : parseLoop current (line :: rest) = current :: parseLoop Worktree.empty rest := by
          simp [parseLoop, h, hp]
        rw [this, ← List.singleton_append, ← List.append_assoc]
        exact ih (res ++ [current]) Worktree.empty
    · rw [specLineStep_nonblank res current line h]
      have : parseLoop current (line :: rest) = parseLoop (parseLine current (trimSpace line)) rest := by
        simp [parseLoop, h]
      rw [this]
      exact ih res (parseLine current (trimSpace line))

theorem parseLoop_path_nonempty (lines : List String) :
    ∀ (current : Worktree) (wt : Worktree), wt ∈ parseLoop current lines → wt.path ≠ "" := by
  induction lines with
  | nil =>
    intro current wt hm
    simp only [parseLoop] at hm
    by_cases h : current.path = ""
    · rw [if_pos h] at hm; exact absurd hm (List.not_mem_nil wt)
    · rw [if_neg h] at hm
      rcases List.mem_singleton.mp hm with rfl
      exact h
  | cons line rest ih =>
    intro current wt hm
    by_cases h : trimSpace line = ""
    · by_cases hp : current.path = ""
      · rw [show parseLoop current (line :: rest) = parseLoop current rest by
          simp [parseLoop, h, hp]] at hm
        exact ih current wt hm
      · rw [show parseLoop current (line :: rest) = current :: parseLoop Worktree.empty rest by
          simp [parseLoop, h, hp]] at hm
        rcases List.mem_cons.mp hm with rfl | hm'
        · exact hp
        · exact ih Worktree.empty wt hm'
    · rw [show parseLoop current (line :: rest) = parseLoop (parseLine current (trimSpace line)) rest by
        simp [parseLoop, h]] at hm
      exact ih (parseLine current (trimSpace line)) wt hm

/-- Claim C1 counterexample: the parser disagrees with the claim's
literal reference algorithm.  On a line with leading whitespace the code
trims first and reads the `HEAD` key, while the literal algorithm splits
at the leading space, finds the empty key, and ignores the line; on a
whitespace-only line the code flushes the accumulator, while the literal
algorithm (for which only the empty line is blank) does not. -/
theorem c1_counterexample :
    getWorktreesParse "worktree /a\n HEAD h" = [⟨"a", "", "/a", "h", 0⟩] ∧
    specReferenceParseLiteral "worktree /a\n HEAD h" = [⟨"a", "", "/a", "", 0⟩] ∧
    getWorktreesParse "worktree /a\n HEAD h" ≠
      specReferenceParseLiteral "worktree /a\n HEAD h" ∧
    getWorktreesParse "worktree /a\n \nworktree /b" =
      [⟨"a", "", "/a", "", 0⟩, ⟨"b", "", "/b", "", 0⟩] ∧
    specReferenceParseLiteral "worktree /a\n \nworktree /b" = [⟨"b", "", "/b", "", 0⟩] ∧
    getWorktreesParse "worktree /a\n \nworktree /b" ≠
      specReferenceParseLiteral "worktree /a\n \nworktree /b" :=
  ⟨rfl, rfl, by decide, rfl, rfl, by decide⟩

/-- Claim C1 amended: the porcelain parser agrees, on every output
string, with the spec section 4.2 reference algorithm amended with the
code's per-line trimming step (each line trimmed of surrounding
whitespace first, a line being blank when it trims to empty), and no
returned record has an empty path. -/
theorem c1_amended_parse_matches_trimmed_spec (output : String) :
    getWorktreesParse output = specReferenceParse output ∧
    (getWorktreesParse output).all (fun wt => wt.path != "") = true := by
  constructor
  · have := parseLoop_eq_spec (splitLines output) [] Worktree.empty
    simpa [getWorktreesParse, specReferenceParse] using this
  · rw [List.all_eq_true]
    intro wt hm
    simpa [bne_iff_ne] using parseLoop_path_nonempty (splitLines output) Worktree.empty wt hm

theorem goodStack_nil (rooted : Bool) : GoodStack rooted [] :=
  ⟨[], [], rfl, by simp, by simp, fun _ => rfl⟩

theorem splitOnChar_ne_nil (sep : Char) (l : List Char) : splitOnChar sep l ≠ [] := by
  cases l with
  | nil => simp [splitOnChar]
  | cons c cs =>
    unfold splitOnChar
    cases h : splitOnChar sep cs with
    | nil => simp
    | cons g gs => by_cases hc : c = sep <;> simp [hc]

theorem splitOnChar_cons_self (sep : Char) (cs : List Char) :
    splitOnChar sep (sep :: cs) = [] :: splitOnChar sep cs := by
  cases h : splitOnChar sep cs with
  | nil => exact absurd h (splitOnChar_ne_nil sep cs)
  | cons g gs =>
    show splitOnChar sep (sep :: cs) = [] :: g :: gs
    unfold splitOnChar
    rw [h]
    exact if_pos rfl

theorem splitOnChar_cons_of_ne {sep c : Char} (cs : List Char) (hc : c ≠ sep) :
    ∃ g gs, splitOnChar sep cs = g :: gs ∧ splitOnChar sep (c :: cs) = (c :: g) :: gs := by
  cases h : splitOnChar sep cs with
  | nil => exact absurd h (splitOnChar_ne_nil sep cs)
  | cons g gs =>
    refine ⟨g, gs, rfl, ?_⟩
    unfold splitOnChar
    rw [h]
    exact if_neg hc

theorem mem_splitOnChar (sep : Char) (l : List Char) :
    ∀ g ∈ splitOnChar sep l, sep ∉ g := by
  induction l with
  | nil => intro g hg; simp [splitOnChar] at hg; simp [hg]
  | cons c cs ih =>
    intro g hg
    by_cases hc : c = sep
    · subst hc
      rw [splitOnChar_cons_self c cs] at hg
      rcases List.mem_cons.mp hg with rfl | hg'
      · simp
      · exact ih g hg'
    · obtain ⟨g0, gs0, h, h2⟩ := splitOnChar_cons_of_ne cs hc
      rw [h2] at hg
      rcases List.mem_cons.mp hg with rfl | hg'
      · intro hmem
        rcases List.mem_cons.mp hmem with h1 | hmem'
        · exact hc h1.symm
        · exact ih g0 (by rw [h]; exact List.mem_cons_self g0 gs0) hmem'
      · exact ih g (by rw [h]; exact List.mem_cons_of_mem g0 hg')

theorem splitOnChar_no_sep {sep : Char} {g : List Char} (h : sep ∉ g) :
    splitOnChar sep g = [g] := by
  induction g with
  | nil => rfl
  | cons c cs ih =>
    have hc : c ≠ sep := fun hc => h (hc ▸ List.mem_cons_self c cs)
    have hcs : sep ∉ cs := fun h' => h (List.mem_cons_of_mem c h')
    obtain ⟨g0, gs0, hsp, h2⟩ := splitOnChar_cons_of_ne cs hc
    rw [ih hcs] at hsp
    injection hsp with ha hb
    rw [h2, ← ha, ← hb]

theorem splitOnChar_append_sep {sep : Char} {g : List Char} (t : List Char) (h : sep ∉ g) :
    splitOnChar sep (g ++ sep :: t) = g :: splitOnChar sep t := by
  induction g with
  | nil =>
    simp only [List.nil_append]
    exact splitOnChar_cons_self sep t
  | cons c cs ih =>
    have hc : c ≠ sep := fun hc => h (hc ▸ List.mem_cons_self c cs)
    have hcs : sep ∉ cs := fun h' => h (List.mem_cons_of_mem c h')
    obtain ⟨g0, gs0, hsp, h2⟩ := splitOnChar_cons_of_ne (cs ++ sep :: t) hc
    rw [ih hcs] at hsp
    injection hsp with ha hb
    rw [List.cons_append, h2, ← ha, ← hb]

theorem splitOnChar_joinSlash (gs : List (List Char)) (hne : gs ≠ [])
    (hns : ∀ g ∈ gs, '/' ∉ g) : splitOnChar '/' (joinSlash gs) = gs := by
  induction gs with
  | nil => exact absurd rfl hne
  | cons g rest ih =>
    cases rest with
    | nil =>
      exact splitOnChar_no_sep (hns g (List.mem_cons_self g []))
    | cons g' rest' =>
      have hj : joinSlash (g :: g' :: rest') = g ++ '/' :: joinSlash (g' :: rest') := rfl
      rw [hj, splitOnChar_append_sep _ (hns g (List.mem_cons_self g _)),
        ih (by simp) (fun x hx => hns x (List.mem_cons_of_mem g hx))]

theorem cleanPush_skip {rooted : Bool} {acc : List (List Char)} {seg : List Char}
    (h : seg = [] ∨ seg = ['.']) : cleanPush rooted acc seg = acc := by
  unfold cleanPush
  rw [if_pos h]

theorem cleanPush_dots_nil (rooted : Bool) :
    cleanPush rooted [] ['.', '.'] = if rooted then [] else [['.', '.']] := by
  cases rooted <;> rfl

theorem cleanPush_dots_cons (rooted : Bool) (top : List Char) (rest : List (List Char)) :
    cleanPush rooted (top :: rest) ['.', '.'] =
      if top = ['.', '.'] then ['.', '.'] :: top :: rest else rest := by
  by_cases ht : top = ['.', '.']
  · subst ht; rfl
  · rw [if_neg ht]
    unfold cleanPush
    rw [if_neg (by simp), if_pos rfl]
    exact if_neg ht

theorem cleanPush_plain {rooted : Bool} {acc : List (List Char)} {seg : List Char}
    (h : plainSeg seg) : cleanPush rooted acc seg = seg :: acc := by
  unfold cleanPush
  rw [if_neg (by rintro (h1 | h1) <;> [exact h.1 h1; exact h.2.1 h1]), if_neg h.2.2.1]

theorem cleanPush_good {rooted : Bool} {acc : List (List Char)} {seg : List Char}
    (hg : GoodStack rooted acc) (hs : '/' ∉ seg) :
    GoodStack rooted (cleanPush rooted acc seg) := by
  obtain ⟨p, q, rfl, hp, hq, hr⟩ := hg
  by_cases h0 : seg = [] ∨ seg = ['.']
  · rw [cleanPush_skip h0]; exact ⟨p, q, rfl, hp, hq, hr⟩
  by_cases h2 : seg = ['.', '.']
  · subst h2
    cases p with
    | nil =>
      cases q with
      | nil =>
        rw [List.nil_append, cleanPush_dots_nil]
        cases rooted with
        | true => exact ⟨[], [], rfl, by simp, by simp, fun _ => rfl⟩
        | false => exact ⟨[], [['.', '.']], rfl, by simp, by simp, by simp⟩
      | cons d q' =>
        have hd : d = ['.', '.'] := hq d (List.mem_cons_self d q')
        subst hd
        rw [List.nil_append, cleanPush_dots_cons, if_pos rfl]
        refine ⟨[], ['.', '.'] :: ['.', '.'] :: q', by simp, by simp, ?_, ?_⟩
        · intro g hgm
          rcases List.mem_cons.mp hgm with rfl | hgm'
          · rfl
          · rcases List.mem_cons.mp hgm' with rfl | hgm''
            · rfl
            · exact hq g (List.mem_cons_of_mem _ hgm'')
        · intro hroot
          exact (List.cons_ne_nil _ _ (hr hroot)).elim
    | cons a p' =>
      have ha : plainSeg a := hp a (List.mem_cons_self a p')
      rw [List.cons_append, cleanPush_dots_cons, if_neg ha.2.2.1]
      exact ⟨p', q, rfl, fun g hgm => hp g (List.mem_cons_of_mem a hgm), hq, hr⟩
  · have hpl : plainSeg seg := ⟨fun h => h0 (Or.inl h), fun h => h0 (Or.inr h), h2, hs⟩
    rw [cleanPush_plain hpl]
    exact ⟨seg :: p, q, by simp,
      fun g hgm => (List.mem_cons.mp hgm).elim (fun h => h ▸ hpl) (hp g), hq, hr⟩

theorem cleanFold_good {rooted : Bool} (segs : List (List Char)) :
    ∀ acc, GoodStack rooted acc → (∀ g ∈ segs, '/' ∉ g) →
      GoodStack rooted (segs.foldl (cleanPush rooted) acc) := by
  induction segs with
  | nil => intro acc hg _; exact hg
  | cons s rest ih =>
    intro acc hg hns
    simp only [List.foldl_cons]
    exact ih (cleanPush rooted acc s)
      (cleanPush_good hg (hns s (List.mem_cons_self s rest)))
      (fun g hg' => hns g (List.mem_cons_of_mem s hg'))

theorem cleanFold_plain {rooted : Bool} (segs : List (List Char)) :
    ∀ acc, (∀ g ∈ segs, plainSeg g) →
      segs.foldl (cleanPush rooted) acc = segs.reverse ++ acc := by
  induction segs with
  | nil => intro acc _; simp
  | cons s rest ih =>
    intro acc hp
    simp only [List.foldl_cons, List.reverse_cons]
    rw [cleanPush_plain (hp s (List.mem_cons_self s rest)),
      ih (s :: acc) (fun g hg => hp g (List.mem_cons_of_mem s hg))]
    simp

theorem cleanFold_dots (segs : List (List Char)) :
    ∀ acc, (∀ g ∈ segs, g = ['.', '.']) → (∀ g ∈ acc, g = ['.', '.']) →
      segs.foldl (cleanPush false) acc = segs.reverse ++ acc := by
  induction segs with
  | nil => intro acc _ _; simp
  | cons s rest ih =>
    intro acc hs hacc
    have h1 : s = ['.', '.'] := hs s (List.mem_cons_self s rest)
    subst h1
    have hstep : cleanPush false acc ['.', '.'] = ['.', '.'] :: acc := by
      cases acc with
      | nil => rfl
      | cons d rest' =>
        have hd : d = ['.', '.'] := hacc d (List.mem_cons_self d rest')
        subst hd
        rfl
    simp only [List.foldl_cons, hstep, List.reverse_cons]
    rw [ih (['.', '.'] :: acc) (fun g hgm => hs g (List.mem_cons_of_mem _ hgm))
      (fun g hgm => (List.mem_cons.mp hgm).elim id (hacc g))]
    simp

theorem refold {rooted : Bool} {acc : List (List Char)} (hg : GoodStack rooted acc) :
    acc.reverse.foldl (cleanPush rooted) [] = acc := by
  obtain ⟨p, q, rfl, hp, hq, hr⟩ := hg
  have hqconst : q = List.replicate q.length ['.', '.'] := List.eq_replicate_of_mem hq
  have hdots : q.reverse.foldl (cleanPush rooted) [] = q := by
    cases rooted with
    | true => rw [hr rfl]; rfl
    | false =>
      rw [cleanFold_dots q.reverse [] (fun g hgm => hq g (List.mem_reverse.mp hgm)) (by simp)]
      rw [List.append_nil, List.reverse_reverse]
  rw [List.reverse_append, List.foldl_append, hdots,
    cleanFold_plain p.reverse q (fun g hgm => hp g (List.mem_reverse.mp hgm)),
    List.reverse_reverse]

theorem goodStack_no_slash {rooted : Bool} {acc : List (List Char)}
    (hg : GoodStack rooted acc) : ∀ g ∈ acc, '/' ∉ g := by
  obtain ⟨p, q, rfl, hp, hq, _⟩ := hg
  intro g hgm
  rcases List.mem_append.mp hgm with h | h
  · exact (hp g h).2.2.2
  · rw [hq g h]; simp

theorem goodStack_elem_ne_nil {rooted : Bool} {acc : List (List Char)}
    (hg : GoodStack rooted acc) : ∀ g ∈ acc, g ≠ [] := by
  obtain ⟨p, q, rfl, hp, hq, _⟩ := hg
  intro g hgm
  rcases List.mem_append.mp hgm with h | h
  · exact (hp g h).1
  · rw [hq g h]; simp

theorem renderClean_true (segs : List (List Char)) :
    renderClean true segs = '/' :: joinSlash segs := by
  unfold renderClean
  rw [if_pos rfl]

theorem renderClean_false_cons (g : List Char) (gs : List (List Char)) :
    renderClean false (g :: gs) = joinSlash (g :: gs) := by
  unfold renderClean
  rw [if_neg (by simp), if_neg (by simp)]

theorem cleanList_cons (a : Char) (t : List Char) :
    cleanList (a :: t) = renderClean (decide (a = '/')) (cleanCore (decide (a = '/')) (a :: t)) :=
  rfl

theorem clean_roundtrip_rooted {stack : List (List Char)} (hstack : GoodStack true stack) :
    cleanList ('/' :: joinSlash stack.reverse) = '/' :: joinSlash stack.reverse := by
  have hns : ∀ g ∈ stack.reverse, '/' ∉ g :=
    fun g hgm => goodStack_no_slash hstack g (List.mem_reverse.mp hgm)
  rw [cleanList_cons, show decide ('/' = '/') = true from rfl, renderClean_true]
  cases hrev : stack.reverse with
  | nil => rfl
  | cons g0 rest =>
    rw [← hrev]
    have hsplit : splitOnChar '/' (joinSlash stack.reverse) = stack.reverse := by
      rw [hrev] at hns ⊢
      exact splitOnChar_joinSlash _ (by simp) hns
    have hcore : cleanCore true ('/' :: joinSlash stack.reverse) = stack.reverse := by
      unfold cleanCore
      rw [splitOnChar_cons_self, hsplit, List.foldl_cons,
        cleanPush_skip (Or.inl rfl), refold hstack]
    rw [hcore]

theorem clean_roundtrip_rel {stack : List (List Char)} {g0 : List Char} {rest : List (List Char)}
    (hstack : GoodStack false stack) (hrev : stack.reverse = g0 :: rest) :
    cleanList (joinSlash (g0 :: rest)) = joinSlash (g0 :: rest) := by
  have hg0 : g0 ∈ stack := List.mem_reverse.mp (by rw [hrev]; exact List.mem_cons_self g0 rest)
  have hg0ne : g0 ≠ [] := goodStack_elem_ne_nil hstack g0 hg0
  have hg0ns : '/' ∉ g0 := goodStack_no_slash hstack g0 hg0
  obtain ⟨a, g0', rfl⟩ : ∃ a g0', g0 = a :: g0' := by
    cases g0 with
    | nil => exact absurd rfl hg0ne
    | cons x xs => exact ⟨x, xs, rfl⟩
  have ha : a ≠ '/' := fun h => hg0ns (h ▸ List.mem_cons_self a g0')
  obtain ⟨t, ht⟩ : ∃ t, joinSlash ((a :: g0') :: rest) = a :: t := by
    cases rest with
    | nil => exact ⟨g0', rfl⟩
    | cons r rs => exact ⟨g0' ++ '/' :: joinSlash (r :: rs), rfl⟩
  have hns2 : ∀ g ∈ (a :: g0') :: rest, '/' ∉ g := by
    intro g hgm
    exact goodStack_no_slash hstack g (List.mem_reverse.mp (by rw [hrev]; exact hgm))
  have hsplit : splitOnChar '/' (a :: t) = (a :: g0') :: rest := by
    rw [← ht]
    exact splitOnChar_joinSlash _ (by simp) hns2
  have hfold := refold hstack
  rw [hrev] at hfold
  rw [ht, cleanList_cons, decide_eq_false ha]
  have hcore : cleanCore false (a :: t) = (a :: g0') :: rest := by
    unfold cleanCore
    rw [hsplit, hfold, hrev]
  rw [hcore, renderClean_false_cons, ht]

theorem cleanList_idem (l : List Char) : cleanList (cleanList l) = cleanList l := by
  cases l with
  | nil => rfl
  | cons c cs =>
    rw [cleanList_cons]
    by_cases hc : c = '/'
    · rw [decide_eq_true hc]
      have hstack : GoodStack true ((splitOnChar '/' (c :: cs)).foldl (cleanPush true) []) :=
        cleanFold_good _ [] (goodStack_nil true) (mem_splitOnChar '/' (c :: cs))
      rw [show cleanCore true (c :: cs) =
        ((splitOnChar '/' (c :: cs)).foldl (cleanPush true) []).reverse from rfl, renderClean_true]
      exact clean_roundtrip_rooted hstack
    · rw [decide_eq_false hc]
      have hstack : GoodStack false ((splitOnChar '/' (c :: cs)).foldl (cleanPush false) []) :=
        cleanFold_good _ [] (goodStack_nil false) (mem_splitOnChar '/' (c :: cs))
      rw [show cleanCore false (c :: cs) =
        ((splitOnChar '/' (c :: cs)).foldl (cleanPush false) []).reverse from rfl]
      cases hrev : ((splitOnChar '/' (c :: cs)).foldl (cleanPush false) []).reverse with
      | nil => rfl
      | cons g0 rest =>
        rw [renderClean_false_cons]
        exact clean_roundtrip_rel hstack hrev

theorem filepathClean_idem (s : String) :
    filepathClean (filepathClean s) = filepathClean s := by
  exact congrArg String.mk (cleanList_idem s.data)

theorem filepathClean_join (a b : String) (hb : b ≠ "") :
    filepathClean (filepathJoin a b) = filepathJoin a b := by
  unfold filepathJoin
  rw [if_neg (by rintro ⟨h1, h2⟩; exact hb h2)]
  by_cases hae : a = ""
  · rw [if_pos hae]
    exact filepathClean_idem b
  · rw [if_neg hae, if_neg hb]
    exact filepathClean_idem _


/-- Claim C6, counterexample: for an absolute configured override that is
not lexically clean, `resolveWorktreeBase` returns the cleaned path, not
the configured override path itself as the claim states. -/
theorem c6_counterexample :
    (resolveWorktreeBase ⟨Except.ok ⟨"/opt/wt/."⟩, Except.ok "/repo/.git", Except.ok "/cwd"⟩).2 =
      Except.ok "/opt/wt" ∧
    specResolveLiteral ⟨Except.ok ⟨"/opt/wt/."⟩, Except.ok "/repo/.git", Except.ok "/cwd"⟩ =
      Except.ok "/opt/wt/." ∧
    ("/opt/wt" : String) ≠ "/opt/wt/." :=
  ⟨rfl, rfl, by decide⟩

/-- Claim C6, amended: as claimed, except that an absolute override is
returned lexically cleaned rather than verbatim. -/
theorem c6_amended_resolveWorktreeBase (env : ResolveEnv) :
    (resolveWorktreeBase env).2 = specResolveAmended env := by
  obtain ⟨cfg?, cd?, wd?⟩ := env
  unfold resolveWorktreeBase specResolveAmended
  cases cfg? with
  | error e => rfl
  | ok cfg =>
    cases cd? with
    | error e => rfl
    | ok out =>
      try dsimp only
      by_cases habs : filepathIsAbs (trimSpace out) = true
      · rw [if_pos habs]
        try dsimp only
        rw [filepathClean_join (trimSpace out) ".." (by decide)]
        by_cases hroot : trimSpace cfg.worktreeRoot = ""
        · rw [if_pos hroot,
            show filepathIsAbs defaultWorktreeRoot = false from rfl]
          rw [if_neg (by simp)]
          rw [filepathClean_join _ defaultWorktreeRoot (by decide)]
          rw [if_pos hroot]
        · rw [if_neg hroot]
          by_cases hra : filepathIsAbs (trimSpace cfg.worktreeRoot) = true
          · rw [if_pos hra]
            rw [if_neg hroot, if_pos hra]
          · rw [if_neg hra]
            rw [filepathClean_join _ _ hroot]
            rw [if_neg hroot, if_neg hra]
      · rw [if_neg habs]
        cases wd? with
        | error e => rfl
        | ok cwd =>
          dsimp only
          rw [filepathClean_join (filepathJoin cwd (trimSpace out)) ".." (by decide)]
          by_cases hroot : trimSpace cfg.worktreeRoot = ""
          · rw [if_pos hroot,
              show filepathIsAbs defaultWorktreeRoot = false from rfl]
            rw [if_neg (by simp)]
            rw [filepathClean_join _ defaultWorktreeRoot (by decide)]
            rw [if_pos hroot]
          · rw [if_neg hroot]
            by_cases hra : filepathIsAbs (trimSpace cfg.worktreeRoot) = true
            · rw [if_pos hra]
              rw [if_neg hroot, if_pos hra]
            · rw [if_neg hra]
              rw [filepathClean_join _ _ hroot]
              rw [if_neg hroot, if_neg hra]


theorem strData_append (s t : String) : (s ++ t).data = s.data ++ t.data := rfl

theorem removeFailMsg_data (n b e : String) :
    (removeFailMsg n b e).data =
      "deleted worktree".data ++ " '".data ++ n.data ++ "' but ".data ++
      "failed to delete branch".data ++ " '".data ++ b.data ++ "': ".data ++ e.data := by
  show ("deleted worktree '" ++ n ++ "' but failed to delete branch '" ++ b ++ "': " ++ e).data = _
  simp only [strData_append, List.append_assoc]
  simp

theorem removeFailMsg_states_removed (n b e : String) :
    "deleted worktree".data <:+: (removeFailMsg n b e).data := by
  rw [removeFailMsg_data]
  exact ⟨[], " '".data ++ n.data ++ "' but ".data ++ "failed to delete branch".data ++
    " '".data ++ b.data ++ "': ".data ++ e.data, by simp [List.append_assoc]⟩

theorem removeFailMsg_states_branch_failed (n b e : String) :
    "failed to delete branch".data <:+: (removeFailMsg n b e).data := by
  rw [removeFailMsg_data]
  exact ⟨"deleted worktree".data ++ " '".data ++ n.data ++ "' but ".data,
    " '".data ++ b.data ++ "': ".data ++ e.data, by simp [List.append_assoc]⟩

theorem removeCore_events (evs : List Event) (target : Worktree) (opts : RemoveOptions)
    (w : RemoveWorld) :
    ∃ tail, (removeCore evs target opts w).events =
      evs ++ Event.gitCmd ["worktree", "remove", "--force", target.path] :: tail := by
  unfold removeCore
  cases w.removeResult with
  | error e => exact ⟨[], rfl⟩
  | ok o =>
    try dsimp only
    by_cases h1 : opts.branchDelete = BranchDeleteMode.none
    · rw [if_pos h1]; exact ⟨[], rfl⟩
    · rw [if_neg h1]
      by_cases h2 : target.branch = ""
      · rw [if_pos h2]; exact ⟨[], rfl⟩
      · rw [if_neg h2]
        cases w.branchDeleteResult with
        | error e => exact ⟨_, rfl⟩
        | ok o2 => exact ⟨_, rfl⟩

theorem removeWorktree_eq_of_prompt (name : String) (opts : RemoveOptions) (w : RemoveWorld)
    (ws : List Worktree) (target : Worktree) (resp : String)
    (hforce : opts.force = false)
    (hlist : getWorktrees w.listOutput w.stat = Except.ok ws)
    (hfind : findWorktree name ws = Option.some target)
    (hstdin : w.stdinLine = Except.ok resp) :
    removeWorktree name opts w =
      if toLowerStr (trimSpace resp) ≠ "y" ∧ toLowerStr (trimSpace resp) ≠ "yes" then
        ⟨[listCmd, Event.readStdin], Except.ok ()⟩
      else removeCore [listCmd, Event.readStdin] target opts w := by
  unfold removeWorktree
  rw [hlist]
  try dsimp only
  rw [hfind]
  try dsimp only
  rw [hforce, if_neg (by simp), hstdin]

/-- Claim C2 -/
theorem c2_remove_confirmation_gate (name : String) (opts : RemoveOptions) (w : RemoveWorld)
    (ws : List Worktree) (target : Worktree) (resp : String)
    (hforce : opts.force = false)
    (hlist : getWorktrees w.listOutput w.stat = Except.ok ws)
    (hfind : findWorktree name ws = Option.some target)
    (hstdin : w.stdinLine = Except.ok resp) :
    (Event.gitCmd ["worktree", "remove", "--force", target.path] ∈ (removeWorktree name opts w).events ↔
      (toLowerStr (trimSpace resp) = "y" ∨ toLowerStr (trimSpace resp) = "yes")) ∧
    (¬ (toLowerStr (trimSpace resp) = "y" ∨ toLowerStr (trimSpace resp) = "yes") →
      (removeWorktree name opts w).result = Except.ok () ∧
      (removeWorktree name opts w).events = [listCmd, Event.readStdin]) := by
  have hrw := removeWorktree_eq_of_prompt name opts w ws target resp hforce hlist hfind hstdin
  have hne1 : Event.gitCmd ["worktree", "remove", "--force", target.path] ≠ listCmd := by
    intro h
    injection h with hl
    injection hl with a hl2
    injection hl2 with b _
    exact absurd b (by decide)
  have hne2 : Event.gitCmd ["worktree", "remove", "--force", target.path] ≠ Event.readStdin := by
    intro h
    exact Event.noConfusion h
  constructor
  · constructor
    · intro hmem
      by_contra hno
      rw [hrw, if_pos ⟨fun h => hno (Or.inl h), fun h => hno (Or.inr h)⟩] at hmem
      rcases List.mem_cons.mp hmem with h | h
      · exact hne1 h
      · rcases List.mem_cons.mp h with h' | h'
        · exact hne2 h'
        · exact absurd h' (List.not_mem_nil _)
    · intro hyes
      rw [hrw, if_neg (by rintro ⟨h1, h2⟩; rcases hyes with h | h; exacts [h1 h, h2 h])]
      obtain ⟨tail, htail⟩ := removeCore_events [listCmd, Event.readStdin] target opts w
      rw [htail]
      exact List.mem_append_right _ (List.mem_cons_self _ _)
  · intro hno
    rw [hrw, if_pos ⟨fun h => hno (Or.inl h), fun h => hno (Or.inr h)⟩]
    exact ⟨rfl, rfl⟩

/-- Claim C2 witness -/
theorem c2_remove_confirmation_gate_witness :
    (removeWorktree "foo" ⟨false, BranchDeleteMode.none⟩
        ⟨Except.ok "worktree /w/foo", (fun _ => Option.none), Except.ok "n\n",
          Except.ok "", Except.ok ""⟩).result = Except.ok () ∧
    (removeWorktree "foo" ⟨false, BranchDeleteMode.none⟩
        ⟨Except.ok "worktree /w/foo", (fun _ => Option.none), Except.ok "n\n",
          Except.ok "", Except.ok ""⟩).events = [listCmd, Event.readStdin] :=
  (c2_remove_confirmation_gate "foo" ⟨false, BranchDeleteMode.none⟩
    ⟨Except.ok "worktree /w/foo", (fun _ => Option.none), Except.ok "n\n",
      Except.ok "", Except.ok ""⟩
    [⟨"foo", "", "/w/foo", "", 0⟩] ⟨"foo", "", "/w/foo", "", 0⟩ "n\n"
    rfl rfl rfl rfl).2 (by decide)

/-- Claim C10 -/
theorem c10_remove_stdin_read_error (name : String) (opts : RemoveOptions) (w : RemoveWorld)
    (ws : List Worktree) (target : Worktree) (e : String)
    (hforce : opts.force = false)
    (hlist : getWorktrees w.listOutput w.stat = Except.ok ws)
    (hfind : findWorktree name ws = Option.some target)
    (hstdin : w.stdinLine = Except.error e) :
    (removeWorktree name opts w).result = Except.error e ∧
    (removeWorktree name opts w).events = [listCmd, Event.readStdin] := by
  unfold removeWorktree
  rw [hlist]
  try dsimp only
  rw [hfind]
  try dsimp only
  rw [hforce, if_neg (by simp), hstdin]
  exact ⟨rfl, rfl⟩

/-- Claim C10 witness -/
theorem c10_remove_stdin_read_error_witness :
    (removeWorktree "foo" ⟨false, BranchDeleteMode.none⟩
        ⟨Except.ok "worktree /w/foo", (fun _ => Option.none), Except.error "EOF",
          Except.ok "", Except.ok ""⟩).result = Except.error "EOF" ∧
    (removeWorktree "foo" ⟨false, BranchDeleteMode.none⟩
        ⟨Except.ok "worktree /w/foo", (fun _ => Option.none), Except.error "EOF",
          Except.ok "", Except.ok ""⟩).events = [listCmd, Event.readStdin] :=
  c10_remove_stdin_read_error "foo" ⟨false, BranchDeleteMode.none⟩
    ⟨Except.ok "worktree /w/foo", (fun _ => Option.none), Except.error "EOF",
      Except.ok "", Except.ok ""⟩
    [⟨"foo", "", "/w/foo", "", 0⟩] ⟨"foo", "", "/w/foo", "", 0⟩ "EOF"
    rfl rfl rfl rfl

/-- Claim C3 -/
theorem c3_remove_branch_delete_failure (name : String) (opts : RemoveOptions) (w : RemoveWorld)
    (ws : List Worktree) (target : Worktree) (e o : String)
    (hlist : getWorktrees w.listOutput w.stat = Except.ok ws)
    (hfind : findWorktree name ws = Option.some target)
    (hforce : opts.force = true)
    (hmode : opts.branchDelete = BranchDeleteMode.safe)
    (hbr : target.branch ≠ "")
    (hrm : w.removeResult = Except.ok o)
    (hbd : w.branchDeleteResult = Except.error e) :
    (removeWorktree name opts w).result =
      Except.error (removeFailMsg target.name target.branch e) ∧
    "deleted worktree".data <:+: (removeFailMsg target.name target.branch e).data ∧
    "failed to delete branch".data <:+: (removeFailMsg target.name target.branch e).data ∧
    (removeWorktree name opts w).events =
      [listCmd, Event.gitCmd ["worktree", "remove", "--force", target.path],
        Event.gitCmd ["branch", "-d", target.branch]] ∧
    (removeWorktree name opts w).events.filter isWorktreeAddCmd = [] := by
  have hrw : removeWorktree name opts w = removeCore [listCmd] target opts w := by
    unfold removeWorktree
    rw [hlist]
    try dsimp only
    rw [hfind]
    try dsimp only
    rw [hforce, if_pos rfl]
  have hcore : removeCore [listCmd] target opts w =
      ⟨[listCmd, Event.gitCmd ["worktree", "remove", "--force", target.path],
        Event.gitCmd ["branch", "-d", target.branch]],
        Except.error (removeFailMsg target.name target.branch e)⟩ := by
    unfold removeCore
    rw [hrm]
    try dsimp only
    rw [hmode, if_neg (by decide), if_neg hbr, if_neg (by decide), hbd]
    rfl
  rw [hrw, hcore]
  refine ⟨rfl, removeFailMsg_states_removed _ _ _, removeFailMsg_states_branch_failed _ _ _, rfl, ?_⟩
  rfl

/-- Claim C3 witness -/
theorem c3_remove_branch_delete_failure_witness :
    (removeWorktree "foo" ⟨true, BranchDeleteMode.safe⟩
        ⟨Except.ok "worktree /w/foo\nbranch refs/heads/foo", (fun _ => Option.none),
          Except.ok "", Except.ok "", Except.error "not fully merged"⟩).result =
      Except.error (removeFailMsg "foo" "foo" "not fully merged") ∧
    (removeWorktree "foo" ⟨true, BranchDeleteMode.safe⟩
        ⟨Except.ok "worktree /w/foo\nbranch refs/heads/foo", (fun _ => Option.none),
          Except.ok "", Except.ok "", Except.error "not fully merged"⟩).events =
      [listCmd, Event.gitCmd ["worktree", "remove", "--force", "/w/foo"],
        Event.gitCmd ["branch", "-d", "foo"]] ∧
    (removeWorktree "foo" ⟨true, BranchDeleteMode.safe⟩
        ⟨Except.ok "worktree /w/foo\nbranch refs/heads/foo", (fun _ => Option.none),
          Except.ok "", Except.ok "", Except.error "not fully merged"⟩).events.filter
      isWorktreeAddCmd = [] := by
  have h := c3_remove_branch_delete_failure "foo" ⟨true, BranchDeleteMode.safe⟩
    ⟨Except.ok "worktree /w/foo\nbranch refs/heads/foo", (fun _ => Option.none),
      Except.ok "", Except.ok "", Except.error "not fully merged"⟩
    [⟨"foo", "foo", "/w/foo", "", 0⟩] ⟨"foo", "foo", "/w/foo", "", 0⟩ "not fully merged" ""
    rfl rfl rfl rfl (by decide) rfl rfl
  exact ⟨h.1, h.2.2.2.1, h.2.2.2.2⟩

theorem resolveWorktreeBase_events_of_ok {env : ResolveEnv} {wb : String}
    (h : (resolveWorktreeBase env).2 = Except.ok wb) :
    (resolveWorktreeBase env).1 = [Event.gitCmd ["rev-parse", "--git-common-dir"]] := by
  obtain ⟨cfg?, cd?, wd?⟩ := env
  cases cfg? with
  | error e => simp [resolveWorktreeBase] at h
  | ok cfg =>
    cases cd? with
    | error e => rfl
    | ok out =>
      unfold resolveWorktreeBase
      try dsimp only
      by_cases habs : filepathIsAbs (trimSpace out) = true
      · rw [if_pos habs]
      · rw [if_neg habs]
        cases wd? with
        | error e => rfl
        | ok cwd => rfl

/-- Claim C5 -/
theorem c5_duplicate_name_rejected (name branch checkout base : String) (w : AddWorld)
    (ws : List Worktree) (o : String)
    (hrev : w.revParseGitDir = Except.ok o)
    (hlist : getWorktrees w.listOutput w.stat = Except.ok ws)
    (hdup : ws.any (fun wt => wt.name == name) = true) :
    (addWorktree name branch checkout base w).result =
      Except.error ("worktree '" ++ name ++ "' already exists") ∧
    (addWorktree name branch checkout base w).events =
      [Event.gitCmd ["rev-parse", "--git-dir"], listCmd] := by
  unfold addWorktree
  rw [hrev]
  try dsimp only
  rw [hlist]
  try dsimp only
  rw [hdup, if_pos rfl]
  exact ⟨rfl, rfl⟩

/-- Claim C5 witness -/
theorem c5_duplicate_name_rejected_witness :
    (addWorktree "repo" "" "" "" addWorldA).result =
      Except.error ("worktree '" ++ "repo" ++ "' already exists") ∧
    (addWorktree "repo" "" "" "" addWorldA).events =
      [Event.gitCmd ["rev-parse", "--git-dir"], listCmd] :=
  c5_duplicate_name_rejected "repo" "" "" "" addWorldA
    [⟨"repo", "main", "/repo", "abc", 0⟩] ".git" rfl rfl rfl

theorem addWorktree_reaches_command (name branch checkout base : String) (w : AddWorld)
    (ws : List Worktree) (wb o : String)
    (hrev : w.revParseGitDir = Except.ok o)
    (hlist : getWorktrees w.listOutput w.stat = Except.ok ws)
    (hdup : ws.any (fun wt => wt.name == name) = false)
    (hres : (resolveWorktreeBase ⟨w.config, w.revParseCommonDir, w.getwd⟩).2 = Except.ok wb)
    (hmk : w.mkdirResult = Except.ok ())
    (hmutex : ¬ (checkout ≠ "" ∧ branch ≠ "")) :
    ∃ post, (addWorktree name branch checkout base w).events =
      [Event.gitCmd ["rev-parse", "--git-dir"], listCmd,
        Event.gitCmd ["rev-parse", "--git-common-dir"], Event.mkdirAll wb,
        Event.gitCmd (claimedAddArgs name branch checkout base (filepathJoin wb name))] ++ post ∧
      (post = [] ∨ post = [listCmd]) := by
  unfold addWorktree
  rw [hrev]
  try dsimp only
  rw [hlist]
  try dsimp only
  rw [hdup, if_neg (by simp)]
  try dsimp only
  rw [hres, resolveWorktreeBase_events_of_ok hres]
  try dsimp only
  rw [hmk]
  try dsimp only
  rw [if_neg hmutex]
  try dsimp only
  cases har : w.addResult with
  | error e => exact ⟨[], rfl, Or.inl rfl⟩
  | ok oadd =>
    try dsimp only
    cases hl2 : getWorktrees w.listOutput2 w.stat2 with
    | error e => exact ⟨[listCmd], rfl, Or.inr rfl⟩
    | ok ws2 =>
      try dsimp only
      cases hf : findWorktree name ws2 with
      | none => exact ⟨[listCmd], rfl, Or.inr rfl⟩
      | some wt => exact ⟨[listCmd], rfl, Or.inr rfl⟩

/-- Claim C4 -/
theorem c4_add_command_exact (name branch checkout base : String) (w : AddWorld)
    (ws : List Worktree) (wb o : String)
    (hrev : w.revParseGitDir = Except.ok o)
    (hlist : getWorktrees w.listOutput w.stat = Except.ok ws)
    (hdup : ws.any (fun wt => wt.name == name) = false)
    (hres : (resolveWorktreeBase ⟨w.config, w.revParseCommonDir, w.getwd⟩).2 = Except.ok wb)
    (hmk : w.mkdirResult = Except.ok ())
    (hmutex : ¬ (checkout ≠ "" ∧ branch ≠ "")) :
    Event.gitCmd (claimedAddArgs name branch checkout base (filepathJoin wb name)) ∈
      (addWorktree name branch checkout base w).events ∧
    ∀ args, Event.gitCmd ("worktree" :: "add" :: args) ∈
        (addWorktree name branch checkout base w).events →
      "worktree" :: "add" :: args = claimedAddArgs name branch checkout base (filepathJoin wb name) := by
  obtain ⟨post, hev, hpost⟩ :=
    addWorktree_reaches_command name branch checkout base w ws wb o hrev hlist hdup hres hmk hmutex
  constructor
  · rw [hev]
    exact List.mem_append_left _ (by simp)
  · intro args hmem
    rw [hev] at hmem
    rcases List.mem_append.mp hmem with h | h
    · simp only [List.mem_cons, List.not_mem_nil, or_false] at h
      rcases h with h | h | h | h | h
      · injection h with hl
        injection hl with h1 _
        exact absurd h1 (by decide)
      · injection h with hl
        injection hl with _ hl2
        injection hl2 with h2 _
        exact absurd h2 (by decide)
      · injection h with hl
        injection hl with h1 _
        exact absurd h1 (by decide)
      · exact Event.noConfusion h
      · exact Event.gitCmd.inj h
    · rcases hpost with rfl | rfl
      · exact absurd h (List.not_mem_nil _)
      · rcases List.mem_singleton.mp h with h'
        injection h' with hl
        injection hl with _ hl2
        injection hl2 with h2 _
        exact absurd h2 (by decide)

/-- Claim C4 witness -/
theorem c4_add_command_exact_witness :
    Event.gitCmd (claimedAddArgs "n" "b" "" "m" (filepathJoin "/repo/.git/wtm/worktrees" "n")) ∈
      (addWorktree "n" "b" "" "m" addWorldA).events :=
  (c4_add_command_exact "n" "b" "" "m" addWorldA
    [⟨"repo", "main", "/repo", "abc", 0⟩] "/repo/.git/wtm/worktrees" ".git"
    rfl rfl rfl rfl rfl (by decide)).1

/-- Claim C7 counterexample -/
theorem c7_counterexample :
    (addWorktree "n" "b" "c" "" addWorldA).result =
      Except.error "cannot use both -b and -B options" ∧
    Event.mkdirAll "/repo/.git/wtm/worktrees" ∈ (addWorktree "n" "b" "c" "" addWorldA).events :=
  ⟨rfl, by decide⟩

/-- Claim C7 amended -/
theorem c7_amended_mutual_exclusion (name branch checkout base : String) (w : AddWorld)
    (ws : List Worktree) (wb o : String)
    (hrev : w.revParseGitDir = Except.ok o)
    (hlist : getWorktrees w.listOutput w.stat = Except.ok ws)
    (hdup : ws.any (fun wt => wt.name == name) = false)
    (hres : (resolveWorktreeBase ⟨w.config, w.revParseCommonDir, w.getwd⟩).2 = Except.ok wb)
    (hmk : w.mkdirResult = Except.ok ())
    (hb : branch ≠ "") (hc : checkout ≠ "") :
    (addWorktree name branch checkout base w).result =
      Except.error "cannot use both -b and -B options" ∧
    (addWorktree name branch checkout base w).events =
      [Event.gitCmd ["rev-parse", "--git-dir"], listCmd,
        Event.gitCmd ["rev-parse", "--git-common-dir"], Event.mkdirAll wb] ∧
    (addWorktree name branch checkout base w).events.filter isWorktreeAddCmd = [] := by
  unfold addWorktree
  rw [hrev]
  try dsimp only
  rw [hlist]
  try dsimp only
  rw [hdup, if_neg (by simp)]
  try dsimp only
  rw [hres, resolveWorktreeBase_events_of_ok hres]
  try dsimp only
  rw [hmk]
  try dsimp only
  rw [if_pos ⟨hc, hb⟩]
  exact ⟨rfl, rfl, rfl⟩

/-- Claim C7 amended witness -/
theorem c7_amended_mutual_exclusion_witness :
    (addWorktree "n" "b" "c" "" addWorldA).result =
      Except.error "cannot use both -b and -B options" ∧
    (addWorktree "n" "b" "c" "" addWorldA).events =
      [Event.gitCmd ["rev-parse", "--git-dir"], listCmd,
        Event.gitCmd ["rev-parse", "--git-common-dir"],
        Event.mkdirAll "/repo/.git/wtm/worktrees"] ∧
    (addWorktree "n" "b" "c" "" addWorldA).events.filter isWorktreeAddCmd = [] :=
  c7_amended_mutual_exclusion "n" "b" "c" "" addWorldA
    [⟨"repo", "main", "/repo", "abc", 0⟩] "/repo/.git/wtm/worktrees" ".git"
    rfl rfl rfl rfl rfl (by decide) (by decide)

/-- Claim C8 counterexample -/
theorem c8_counterexample :
    (addWorktree "foo" "" "" "" addWorldB).result = Except.ok () ∧
    (addWorktree "foo" "" "" "" addWorldB).printed = Option.none ∧
    getWorktrees addWorldB.listOutput2 addWorldB.stat2 =
      Except.ok [⟨"repo", "", "/repo", "", 0⟩] ∧
    findWorktree "foo" [⟨"repo", "", "/repo", "", 0⟩] = Option.none :=
  ⟨rfl, rfl, rfl, rfl⟩

/-- Claim C8 amended -/
theorem c8_amended_inconsistency (name branch checkout base : String) (w : AddWorld)
    (l3 : Except String String) (s3 : String → Option Nat)
    (ws ws2 ws3 : List Worktree) (wb o a : String)
    (hrev : w.revParseGitDir = Except.ok o)
    (hlist : getWorktrees w.listOutput w.stat = Except.ok ws)
    (hdup : ws.any (fun wt => wt.name == name) = false)
    (hres : (resolveWorktreeBase ⟨w.config, w.revParseCommonDir, w.getwd⟩).2 = Except.ok wb)
    (hmk : w.mkdirResult = Except.ok ())
    (hmutex : ¬ (checkout ≠ "" ∧ branch ≠ ""))
    (hadd : w.addResult = Except.ok a)
    (hl2 : getWorktrees w.listOutput2 w.stat2 = Except.ok ws2)
    (hmiss2 : findWorktree name ws2 = Option.none)
    (hl3 : getWorktrees l3 s3 = Except.ok ws3)
    (hmiss3 : findWorktree name ws3 = Option.none) :
    (addWorktree name branch checkout base w).result = Except.ok () ∧
    (addWorktree name branch checkout base w).printed = Option.none ∧
    handleAddWorktree name branch checkout base w l3 s3 =
      Except.error "worktree created but not found" := by
  have hout : addWorktree name branch checkout base w =
      ⟨[Event.gitCmd ["rev-parse", "--git-dir"], listCmd,
        Event.gitCmd ["rev-parse", "--git-common-dir"], Event.mkdirAll wb,
        Event.gitCmd (claimedAddArgs name branch checkout base (filepathJoin wb name)), listCmd],
        Except.ok (), Option.none⟩ := by
    unfold addWorktree
    rw [hrev]
    try dsimp only
    rw [hlist]
    try dsimp only
    rw [hdup, if_neg (by simp)]
    try dsimp only
    rw [hres, resolveWorktreeBase_events_of_ok hres]
    try dsimp only
    rw [hmk]
    try dsimp only
    rw [if_neg hmutex]
    try dsimp only
    rw [hadd]
    try dsimp only
    rw [hl2]
    try dsimp only
    rw [hmiss2]
    rfl
  refine ⟨by rw [hout], by rw [hout], ?_⟩
  unfold handleAddWorktree
  rw [hout]
  try dsimp only
  rw [hl3]
  try dsimp only
  rw [hmiss3]

/-- Claim C8 amended witness -/
theorem c8_amended_inconsistency_witness :
    (addWorktree "foo" "" "" "" addWorldB).result = Except.ok () ∧
    (addWorktree "foo" "" "" "" addWorldB).printed = Option.none ∧
    handleAddWorktree "foo" "" "" "" addWorldB (Except.ok "worktree /repo\n")
      (fun _ => Option.none) = Except.error "worktree created but not found" :=
  c8_amended_inconsistency "foo" "" "" "" addWorldB (Except.ok "worktree /repo\n")
    (fun _ => Option.none)
    [⟨"repo", "main", "/repo", "abc", 0⟩] [⟨"repo", "", "/repo", "", 0⟩]
    [⟨"repo", "", "/repo", "", 0⟩] "/repo/.git/wtm/worktrees" ".git" ""
    rfl rfl rfl rfl rfl (by decide) rfl rfl rfl rfl rfl


theorem parseLine_created (current : Worktree) (line : String) :
    (parseLine current line).created = current.created := by
  unfold parseLine
  cases breakAtSpace line.data with
  | none => rfl
  | some kv =>
    obtain ⟨k, v⟩ := kv
    dsimp only
    split_ifs <;> rfl

theorem parseLoop_created_zero (lines : List String) :
    ∀ current, current.created = 0 → ∀ wt ∈ parseLoop current lines, wt.created = 0 := by
  induction lines with
  | nil =>
    intro current h0 wt hm
    simp only [parseLoop] at hm
    by_cases hp : current.path = ""
    · rw [if_pos hp] at hm
      exact absurd hm (List.not_mem_nil wt)
    · rw [if_neg hp] at hm
      rcases List.mem_singleton.mp hm with rfl
      exact h0
  | cons line rest ih =>
    intro current h0 wt hm
    by_cases h : trimSpace line = ""
    · by_cases hp : current.path = ""
      · rw [show parseLoop current (line :: rest) = parseLoop current rest by
          simp [parseLoop, h, hp]] at hm
        exact ih current h0 wt hm
      · rw [show parseLoop current (line :: rest) = current :: parseLoop Worktree.empty rest by
          simp [parseLoop, h, hp]] at hm
        rcases List.mem_cons.mp hm with rfl | hm'
        · exact h0
        · exact ih Worktree.empty rfl wt hm'
    · rw [show parseLoop current (line :: rest) = parseLoop (parseLine current (trimSpace line)) rest by
        simp [parseLoop, h]] at hm
      exact ih (parseLine current (trimSpace line)) (by rw [parseLine_created]; exact h0) wt hm

/-- Claim C9 counterexample -/
theorem c9_counterexample :
    populateCreated (fun _ => Option.none)
      (getWorktreesParse "worktree /gone/wt\nHEAD abc\nbranch refs/heads/b\n") =
      [⟨"wt", "b", "/gone/wt", "abc", 0⟩] ∧
    formatTimeAgo 0 12345 = "unknown" ∧
    printField ⟨"wt", "b", "/gone/wt", "abc", 0⟩ "created" = Except.ok "0001-01-01T00:00:00Z\n" ∧
    ("0001-01-01T00:00:00Z\n" : String) ≠ "unknown" ++ "\n" ∧
    listContainsSub "unknown".data (printPrettyFormat ⟨"wt", "b", "/gone/wt", "abc", 0⟩).data = false :=
  ⟨rfl, rfl, rfl, by decide, by decide⟩

/-- Claim C9 amended -/
theorem c9_amended_zero_created (output : String) (stat : String → Option Nat)
    (wt : Worktree) (now : Nat)
    (hmem : wt ∈ populateCreated stat (getWorktreesParse output))
    (hstat : stat wt.path = Option.none) :
    wt.created = 0 ∧
    formatTimeAgo wt.created now = "unknown" ∧
    printPrettyFormat wt =
      "Name:     " ++ wt.name ++ "\n" ++ "Branch:   " ++ wt.branch ++ "\n" ++
      "Path:     " ++ wt.path ++ "\n" ++ "HEAD:     " ++ wt.head ++ "\n" ++
      "Created:  " ++ "0001-01-01 00:00:00" ++ "\n" ∧
    printField wt "created" = Except.ok ("0001-01-01T00:00:00Z" ++ "\n") := by
  have h0 : wt.created = 0 := by
    unfold populateCreated at hmem
    rcases List.mem_map.mp hmem with ⟨wt0, hmem0, heq⟩
    have hz : wt0.created = 0 :=
      parseLoop_created_zero (splitLines output) Worktree.empty rfl wt0 hmem0
    cases hs : stat wt0.path with
    | some t =>
      rw [hs] at heq
      have hpath : wt.path = wt0.path := by rw [← heq]
      rw [hpath, hs] at hstat
      exact Option.noConfusion hstat
    | none =>
      rw [hs] at heq
      rw [← heq]
      exact hz
  refine ⟨h0, ?_, ?_, ?_⟩
  · unfold formatTimeAgo
    rw [h0, if_pos rfl]
  · unfold printPrettyFormat
    rw [h0, show formatDateTimeGo 0 = "0001-01-01 00:00:00" from rfl]
  · unfold printField
    rw [if_neg (by decide), if_neg (by decide), if_neg (by decide), if_neg (by decide), if_pos rfl,
      h0, show formatRFC3339Go 0 = "0001-01-01T00:00:00Z" from rfl]

/-- Claim C9 amended witness -/
theorem c9_amended_zero_created_witness :
    (⟨"wt", "b", "/gone/wt", "abc", 0⟩ : Worktree).created = 0 ∧
    formatTimeAgo (⟨"wt", "b", "/gone/wt", "abc", 0⟩ : Worktree).created 12345 = "unknown" ∧
    printPrettyFormat ⟨"wt", "b", "/gone/wt", "abc", 0⟩ =
      "Name:     " ++ "wt" ++ "\n" ++ "Branch:   " ++ "b" ++ "\n" ++
      "Path:     " ++ "/gone/wt" ++ "\n" ++ "HEAD:     " ++ "abc" ++ "\n" ++
      "Created:  " ++ "0001-01-01 00:00:00" ++ "\n" ∧
    printField ⟨"wt", "b", "/gone/wt", "abc", 0⟩ "created" =
      Except.ok ("0001-01-01T00:00:00Z" ++ "\n") :=
  c9_amended_zero_created "worktree /gone/wt\nHEAD abc\nbranch refs/heads/b\n"
    (fun _ => Option.none) ⟨"wt", "b", "/gone/wt", "abc", 0⟩ 12345 (by decide) rfl

end Wtm
